import Mathlib

/-!
Verification development for png2webp.py, a batch PNG-to-WebP converter
that remaps informal image metadata into an EXIF-style tag map, copies
file timestamps, and optionally moves the source file to the trash.

The Python source is shallowly embedded below.  Strings are Lean strings,
with the Python string operations (split, join, lower, endswith, the
os.path and pathlib path arithmetic) modelled explicitly over the
underlying character lists.  The file system is a list of entries keyed
by absolute path; relative paths are resolved against a current working
directory carried by the environment, and the script directory used by
os.path.join in the save call is carried separately, exactly as in the
source.  Fallible library calls (the codec encode, shutil.copystat) are
driven by Boolean oracles in the environment so that every control path
of the Python code is reachable in the model.

The model of json.loads and json.dumps covers the JSON fragment with
null, booleans, integer numbers, strings, arrays and objects; numbers
with a fractional part or an exponent are outside the embedded fragment
(their round trip goes through Python floats, which this development
does not model).  json.dumps is embedded with its default settings:
separators made of a comma plus space and a colon plus space, and
ensure ascii escaping.
-/

namespace Png2Webp

/-! ### Character-level string helpers (models of Python str operations) -/

/-- Model of Python str.split with a one-character separator, over
character lists.  The result is always nonempty. -/
def splitOnChar (sep : Char) : List Char → List (List Char)
  | [] => [[]]
  | c :: cs =>
    match splitOnChar sep cs with
    | [] => [[c]]
    | h :: t => if c = sep then [] :: h :: t else (c :: h) :: t

/-- Model of Python sep.join over character lists. -/
def joinChar (sep : Char) : List (List Char) → List Char
  | [] => []
  | [l] => l
  | l :: ls => l ++ sep :: joinChar sep ls

/-- ASCII lower-casing of one character, the fragment of Python
str.lower the program relies on. -/
def pyLowerChar (c : Char) : Char :=
  if 'A' ≤ c ∧ c ≤ 'Z' then Char.ofNat (c.toNat + 32) else c

/-- Model of Python str.lower. -/
def pyLower (s : String) : String := ⟨s.data.map pyLowerChar⟩

/-- Model of Python str.endswith. -/
def pyEndsWith (s t : String) : Bool := t.data.isSuffixOf s.data

/-- Model of Python str.startswith, used only by the directory walk. -/
def pyStartsWith (s t : String) : Bool := t.data.isPrefixOf s.data

/-- True when the path is absolute (begins with a slash). -/
def isAbs (p : String) : Bool := p.data.head? = some '/'

/-- Model of the two-argument os.path.join: an absolute second argument
discards the first. -/
def osJoin (a b : String) : String := if isAbs b then b else a ++ "/" ++ b

/-- Resolution of a possibly relative path against the current working
directory, as os.path.exists, Image.open, shutil.copystat and
send2trash all do implicitly. -/
def absOf (cwd p : String) : String := osJoin cwd p

/-- Model of pathlib Path.name: the part after the last slash. -/
def pathName (p : String) : String := ⟨(splitOnChar '/' p.data).getLastD []⟩

/-- Model of pathlib Path.parent for the paths this program builds.
Single-dot normalisation of pathlib is not modelled. -/
def pathParent (p : String) : String :=
  let parts := splitOnChar '/' p.data
  if parts.length ≤ 1 then "."
  else
    let pre := parts.dropLast
    if pre.all (fun l => l = []) then "/" else ⟨joinChar '/' pre⟩

/-- Model of the pathlib slash operator joining a directory and a simple
name. -/
def pathlibJoin (dir n : String) : String :=
  if dir = "." then n else if dir = "/" then "/" ++ n else dir ++ "/" ++ n

/-! ### JSON values and the model of json.dumps -/

/-- JSON values in the embedded fragment.  Numbers are integers; object
fields keep insertion order, as Python dicts do. -/
inductive Json where
  | null : Json
  | bool : Bool → Json
  | num : Int → Json
  | str : String → Json
  | arr : List Json → Json
  | obj : List (String × Json) → Json

/-- One hexadecimal digit, lower case, as the json module emits. -/
def hexDigit (n : Nat) : Char :=
  if n < 10 then Char.ofNat ('0'.toNat + n) else Char.ofNat ('a'.toNat + (n - 10))

/-- Four-digit hexadecimal rendering used by unicode escapes. -/
def hex4 (n : Nat) : List Char :=
  [hexDigit (n / 4096 % 16), hexDigit (n / 256 % 16), hexDigit (n / 16 % 16), hexDigit (n % 16)]

/-- Escaping of one character inside a JSON string literal, following
json.dumps with ensure ascii: printable ASCII is kept, the two-character
escapes are used where they exist, everything else becomes a unicode
escape (with a surrogate pair above the basic plane). -/
def escChar (c : Char) : List Char :=
  if c = '"' then ['\\', '"']
  else if c = '\\' then ['\\', '\\']
  else if c = '\n' then ['\\', 'n']
  else if c = '\t' then ['\\', 't']
  else if c = '\r' then ['\\', 'r']
  else if c = '\x08' then ['\\', 'b']
  else if c = '\x0c' then ['\\', 'f']
  else if c.toNat < 0x20 then '\\' :: 'u' :: hex4 c.toNat
  else if c.toNat < 0x7f then [c]
  else if c.toNat < 0x10000 then '\\' :: 'u' :: hex4 c.toNat
  else
    let n := c.toNat - 0x10000
    ('\\' :: 'u' :: hex4 (0xd800 + n / 0x400)) ++ ('\\' :: 'u' :: hex4 (0xdc00 + n % 0x400))

/-- Model of json.dumps on a string. -/
def dumpStr (s : String) : String := ⟨'"' :: (s.data.flatMap escChar ++ ['"'])⟩

mutual

/-- Model of json.dumps with default separators. -/
def dumps : Json → String
  | .null => "null"
  | .bool true => "true"
  | .bool false => "false"
  | .num n => toString n
  | .str s => dumpStr s
  | .arr xs => "[" ++ dumpsArr xs ++ "]"
  | .obj kvs => "\x7b" ++ dumpsObj kvs ++ "\x7d"

/-- Comma-space separated rendering of array elements. -/
def dumpsArr : List Json → String
  | [] => ""
  | [x] => dumps x
  | x :: y :: xs => dumps x ++ ", " ++ dumpsArr (y :: xs)

/-- Comma-space separated rendering of object fields, with a colon-space
between key and value. -/
def dumpsObj : List (String × Json) → String
  | [] => ""
  | [(k, v)] => dumpStr k ++ ": " ++ dumps v
  | (k, v) :: y :: xs => dumpStr k ++ ": " ++ dumps v ++ ", " ++ dumpsObj (y :: xs)

end

/-! ### A model of json.loads over the embedded fragment -/

/-- JSON whitespace. -/
def isJsonWs (c : Char) : Bool := c = ' ' ∨ c = '\t' ∨ c = '\n' ∨ c = '\r'

/-- Skip leading whitespace. -/
def skipWs : List Char → List Char
  | [] => []
  | c :: cs => if isJsonWs c then skipWs cs else c :: cs

/-- Value of one hexadecimal digit, if any. -/
def hexVal (c : Char) : Option Nat :=
  if '0' ≤ c ∧ c ≤ '9' then some (c.toNat - '0'.toNat)
  else if 'a' ≤ c ∧ c ≤ 'f' then some (c.toNat - 'a'.toNat + 10)
  else if 'A' ≤ c ∧ c ≤ 'F' then some (c.toNat - 'A'.toNat + 10)
  else none

/-- Parse the remainder of a JSON string literal, after the opening
quote.  Surrogate pairs are not recombined; claims never exercise
them. -/
def parseStrRest : Nat → List Char → Option (List Char × List Char)
  | 0, _ => none
  | _ + 1, [] => none
  | fuel + 1, c :: cs =>
    if c = '"' then some ([], cs)
    else if c = '\\' then
      match cs with
      | [] => none
      | e :: cs' =>
        if e = 'u' then
          match cs' with
          | a :: b :: c2 :: d :: cs'' =>
            match hexVal a, hexVal b, hexVal c2, hexVal d with
            | some va, some vb, some vc, some vd =>
              match parseStrRest fuel cs'' with
              | some (s, rest) =>
                some (Char.ofNat (((va * 16 + vb) * 16 + vc) * 16 + vd) :: s, rest)
              | none => none
            | _, _, _, _ => none
          | _ => none
        else
          match
            (if e = '"' then some '"'
             else if e = '\\' then some '\\'
             else if e = '/' then some '/'
             else if e = 'n' then some '\n'
             else if e = 't' then some '\t'
             else if e = 'r' then some '\r'
             else if e = 'b' then some '\x08'
             else if e = 'f' then some '\x0c'
             else none) with
          | some d =>
            match parseStrRest fuel cs' with
            | some (s, rest) => some (d :: s, rest)
            | none => none
          | none => none
    else if c.toNat < 0x20 then none
    else
      match parseStrRest fuel cs with
      | some (s, rest) => some (c :: s, rest)
      | none => none

/-- Parse a run of decimal digits. -/
def parseDigits : List Char → List Char × List Char
  | [] => ([], [])
  | c :: cs =>
    if '0' ≤ c ∧ c ≤ '9' then
      let (ds, rest) := parseDigits cs
      (c :: ds, rest)
    else ([], c :: cs)

/-- Numeric value of a digit run. -/
def digitsToNat : List Char → Nat
  | [] => 0
  | c :: cs => (c.toNat - '0'.toNat) * 10 ^ cs.length + digitsToNat cs

/-- Parse an integer JSON number.  Leading zeros are rejected as in the
json module; a following dot or exponent marks a float, which is outside
the embedded fragment, so the parse fails there. -/
def parseNum (cs : List Char) : Option (Int × List Char) :=
  let (neg, cs1) : Bool × List Char :=
    match cs with
    | '-' :: cs' => (true, cs')
    | _ => (false, cs)
  match parseDigits cs1 with
  | ([], _) => none
  | (d :: ds, rest) =>
    if d = '0' ∧ ds ≠ [] then none
    else
      match rest with
      | '.' :: _ => none
      | 'e' :: _ => none
      | 'E' :: _ => none
      | _ =>
        let v : Int := Int.ofNat (digitsToNat (d :: ds))
        some (if neg then -v else v, rest)

/-- Insert a key into an object association list with Python dict
semantics: an existing key keeps its position and gets the new value,
otherwise the pair is appended. -/
def objUpsert (kvs : List (String × Json)) (k : String) (v : Json) : List (String × Json) :=
  if k ∈ kvs.map Prod.fst then
    kvs.map (fun p => if p.1 = k then (k, v) else p)
  else kvs ++ [(k, v)]

/-- Check that a literal keyword follows, returning the remainder. -/
def expectChars : List Char → List Char → Option (List Char)
  | [], cs => some cs
  | k :: ks, c :: cs => if c = k then expectChars ks cs else none
  | _ :: _, [] => none

mutual

/-- Parse one JSON value, returning it and the unconsumed remainder. -/
def parseVal : Nat → List Char → Option (Json × List Char)
  | 0, _ => none
  | fuel + 1, cs =>
    match skipWs cs with
    | [] => none
    | c :: cs' =>
      if c = 'n' then
        match expectChars ['u', 'l', 'l'] cs' with
        | some rest => some (.null, rest)
        | none => none
      else if c = 't' then
        match expectChars ['r', 'u', 'e'] cs' with
        | some rest => some (.bool true, rest)
        | none => none
      else if c = 'f' then
        match expectChars ['a', 'l', 's', 'e'] cs' with
        | some rest => some (.bool false, rest)
        | none => none
      else if c = '"' then
        match parseStrRest (cs'.length + 1) cs' with
        | some (s, rest) => some (.str ⟨s⟩, rest)
        | none => none
      else if c = '[' then
        match skipWs cs' with
        | ']' :: rest => some (.arr [], rest)
        | cs'' =>
          match parseArrItems fuel cs'' with
          | some (xs, rest) => some (.arr xs, rest)
          | none => none
      else if c = '\x7b' then
        match skipWs cs' with
        | '\x7d' :: rest => some (.obj [], rest)
        | cs'' =>
          match parseObjItems fuel cs'' [] with
          | some (kvs, rest) => some (.obj kvs, rest)
          | none => none
      else
        match parseNum (c :: cs') with
        | some (n, rest) => some (.num n, rest)
        | none => none

/-- Parse the elements of a nonempty array, up to the closing bracket. -/
def parseArrItems : Nat → List Char → Option (List Json × List Char)
  | 0, _ => none
  | fuel + 1, cs =>
    match parseVal fuel cs with
    | none => none
    | some (x, rest) =>
      match skipWs rest with
      | ',' :: rest' =>
        match parseArrItems fuel rest' with
        | some (xs, rest'') => some (x :: xs, rest'')
        | none => none
      | ']' :: rest' => some ([x], rest')
      | _ => none

/-- Parse the fields of a nonempty object, up to the closing brace,
accumulating with dict upsert semantics. -/
def parseObjItems : Nat → List Char → List (String × Json) → Option (List (String × Json) × List Char)
  | 0, _, _ => none
  | fuel + 1, cs, acc =>
    match skipWs cs with
    | '"' :: cs' =>
      match parseStrRest (cs'.length + 1) cs' with
      | none => none
      | some (k, rest) =>
        match skipWs rest with
        | ':' :: rest' =>
          match parseVal fuel rest' with
          | none => none
          | some (v, rest'') =>
            let acc' := objUpsert acc ⟨k⟩ v
            match skipWs rest'' with
            | ',' :: rest3 => parseObjItems fuel rest3 acc'
            | '\x7d' :: rest3 => some (acc', rest3)
            | _ => none
        | _ => none
    | _ => none

end

/-- Model of json.loads: parse one value and require only whitespace
after it. -/
def jsonParse (s : String) : Option Json :=
  match parseVal (s.data.length + 1) s.data with
  | some (j, rest) =>
    match skipWs rest with
    | [] => some j
    | _ => none
  | none => none

end Png2Webp


namespace Png2Webp

/-! ### Python values, errors, and the metadata extraction of saveWebp -/

/-- Values found in the informal metadata mapping img.info.  Textual
values are strings; dpi tuples, gamma floats and similar non-string
entries are collapsed into one constructor, since json.loads raises
TypeError on every one of them before looking at the content. -/
inductive PyValue where
  | str : String → PyValue
  | other : PyValue
deriving DecidableEq

/-- Exception classes the embedded code can raise.  The batch driver
catches all of them alike, so only the class identity matters. -/
inductive PyErr where
  | typeError : PyErr
  | jsonDecodeError : PyErr
  | fileNotFound : PyErr
  | valueError : PyErr
  | codecError : PyErr
  | osError : PyErr
  | eofError : PyErr
deriving DecidableEq

/-- Model of json.loads applied to a metadata value: a non-string raises
TypeError, an unparsable string raises the decode error, otherwise the
parsed value is returned. -/
def pyJsonLoads : PyValue → Except PyErr Json
  | .str s =>
    match jsonParse s with
    | some j => .ok j
    | none => .error .jsonDecodeError
  | .other => .error .typeError

/-- Fixed tag reserved for the prompt metadata key (0x0110). -/
def PROMPT_TAG : Int := 272

/-- Starting tag for all other metadata keys (0x010f), decremented per
key. -/
def EXTRA_METADATA_TAG : Int := 271

/-- Assignment into the EXIF tag map with dict semantics: an existing
tag keeps its position and receives the new value, a new tag is
appended. -/
def setTag (m : List (Int × String)) (t : Int) (v : String) : List (Int × String) :=
  if t ∈ m.map Prod.fst then
    m.map (fun p => if p.1 = t then (t, v) else p)
  else m ++ [(t, v)]

/-- The metadata loop of saveWebp (source lines 60 to 71): iterate the
metadata mapping in order; the key prompt goes to PROMPT_TAG, the key
workflow and every other key go to the running extra tag, which is
decremented after each such key.  The first unparsable value aborts the
whole extraction. -/
def extractFrom : List (String × PyValue) → Int → List (Int × String) →
    Except PyErr (List (Int × String))
  | [], _, acc => .ok acc
  | (k, v) :: rest, t, acc =>
    match pyJsonLoads v with
    | .error e => .error e
    | .ok j =>
      if k = "prompt" then
        extractFrom rest t (setTag acc PROMPT_TAG ("Prompt:" ++ dumps j))
      else if k = "workflow" then
        extractFrom rest (t - 1) (setTag acc t ("Workflow:" ++ dumps j))
      else
        extractFrom rest (t - 1) (setTag acc t (k ++ ":" ++ dumps j))

/-- The complete metadata extraction, starting from the empty EXIF map
returned by img.getexif on a PNG and the initial extra tag. -/
def extractMetadata (md : List (String × PyValue)) : Except PyErr (List (Int × String)) :=
  extractFrom md EXTRA_METADATA_TAG []

/-! ### File system, environment and the converter -/

/-- A decodable source image: its informal metadata mapping.  Pixel
content is irrelevant to every claim. -/
structure SourceImage where
  metadata : List (String × PyValue)
deriving DecidableEq

/-- One file on disk, keyed by absolute path.  The img field is the
result of decoding the file: none models a file PIL cannot open as an
image. -/
structure FsEntry where
  path : String
  mtime : Nat
  img : Option SourceImage
deriving DecidableEq

/-- The ambient environment of one run: working directory, the script
directory used by the save call, the directories and files present at
the start, the trash capability, the interactive answer, and oracles
for the fallible library calls: the codec encode, copystat, the
send2trash move (which can raise a trash permission or OS error), and
the availability of stdin for the interactive prompt (a closed stdin
makes the input call raise EOFError). -/
structure World where
  cwd : String
  scriptDir : String
  dirs : List String
  fs : List FsEntry
  now : Nat
  trashAvail : Bool
  promptAnswer : String
  stdinOk : Bool
  saveOk : String → Bool
  copystatOk : String → Bool
  trashOk : String → Bool

/-- The per-file conversion request built from the CLI flags. -/
structure Request where
  lossless : Bool
  quality : Int
  method : Int
  use_current_date : Bool
  delete_after : Bool
deriving DecidableEq

/-- Paths of all entries of a file list. -/
def fsPaths (fs : List FsEntry) : List String := fs.map FsEntry.path

/-- First entry at an absolute path, shadowing semantics for rewritten
files. -/
def fsLookup (fs : List FsEntry) (p : String) : Option FsEntry :=
  fs.find? (fun e => e.path = p)

/-- Existence test for a possibly relative path, resolved against the
working directory as the pathlib exists call does. -/
def fileExists (w : World) (fs : List FsEntry) (p : String) : Bool :=
  decide (absOf w.cwd p ∈ fsPaths fs)

/-- The base name computation of saveWebp (source line 80): everything
of the file name before the final extension. -/
def baseNameOf (p : String) : String :=
  ⟨joinChar '.' ((splitOnChar '.' (pathName p).data).dropLast)⟩

/-- Candidate output path number i for a given input (source lines 82
and 86): the plain webp name for i = 0, suffixed names afterwards. -/
def candidate (input : String) (i : Nat) : String :=
  let base := baseNameOf input
  let par := pathParent input
  if i = 0 then pathlibJoin par (base ++ ".webp")
  else pathlibJoin (pathParent (pathlibJoin par base)) (base ++ "_" ++ toString i ++ ".webp")

/-- The collision loop of saveWebp (source lines 83 to 87), with fuel
for totality: take the first candidate whose working-directory
resolution does not exist. -/
def findFree (w : World) (fs : List FsEntry) (input : String) : Nat → Nat → String
  | 0, i => candidate input i
  | fuel + 1, i =>
    if fileExists w fs (candidate input i) then findFree w fs input fuel (i + 1)
    else candidate input i

/-- The chosen output filename string, exactly as the Python variable
output_filename. -/
def outputName (w : World) (fs : List FsEntry) (input : String) : String :=
  findFree w fs input (fs.length + 1) 0

/-- Result dictionary of saveWebp together with the absolute path the
encoder actually wrote, which the source computes on line 89 by joining
the script directory with the chosen filename. -/
structure SaveResult where
  filename : String
  writtenAbs : String
  exif : List (Int × String)
deriving DecidableEq

/-- Model of saveWebp (source lines 35 to 136): open and decode the
input, extract the metadata, choose an output name avoiding existing
files, and encode at the script-directory join of that name.  Every
failure surfaces as an exception value; a failed encode writes
nothing. -/
def saveWebp (w : World) (fs : List FsEntry) (input : String) (_req : Request) :
    Except PyErr (SaveResult × List FsEntry) :=
  match fsLookup fs (absOf w.cwd input) with
  | none => .error .fileNotFound
  | some entry =>
    match entry.img with
    | none => .error .codecError
    | some img => do
      let exif ← extractFrom img.metadata EXTRA_METADATA_TAG []
      let out := outputName w fs input
      let wpath := osJoin w.scriptDir out
      if w.saveOk wpath then
        .ok ({ filename := out, writtenAbs := wpath, exif := exif },
          { path := wpath, mtime := w.now, img := none } :: fs)
      else .error .codecError

/-- Model of shutil.copystat from the source path onto the result
filename, both resolved against the working directory: it fails when
either resolved path has no file, or when the oracle reports an OS
error; on success the destination mtime becomes the source mtime. -/
def copystat (w : World) (fs : List FsEntry) (src dst : String) :
    Option (List FsEntry) :=
  let s := absOf w.cwd src
  let d := absOf w.cwd dst
  match fsLookup fs s, fsLookup fs d with
  | some se, some _ =>
    if w.copystatOk d then
      some (fs.map (fun e => if e.path = d then { e with mtime := se.mtime } else e))
    else none
  | _, _ => none

/-- Mutable state threaded through one run: current files, paths moved
to trash, and the observable flags of the attribute and disposal
steps. -/
structure St where
  fs : List FsEntry
  trashed : List String
  prompted : Bool
  promptDeclined : Bool
  attrCopied : Bool
deriving DecidableEq

/-- Termination of one call of convert_png_to_webp: a normal return or
an uncaught exception. -/
inductive Outcome where
  | ok : Outcome
  | raised : PyErr → Outcome
deriving DecidableEq

/-- Observable result of one call of convert_png_to_webp. -/
structure ConvResult where
  outcome : Outcome
  st : St
  errorSaving : Bool
  saved : Option SaveResult
deriving DecidableEq

/-- Model of convert_png_to_webp (source lines 143 to 185).  The two
input validations raise before the try block.  Only the saveWebp call
is guarded by the try; its failure sets error_saving and is logged.
The copystat call and the disposal run after the handler, so their
exceptions propagate.  Disposal prompts when send2trash is missing (the
input call raising EOFError when stdin is unavailable) and otherwise
moves the source to trash, a library call that can itself raise. -/
def convert_png_to_webp (w : World) (st : St) (input : String) (req : Request) : ConvResult :=
  if ¬ (absOf w.cwd input ∈ fsPaths st.fs) then
    { outcome := .raised .fileNotFound, st := st, errorSaving := false, saved := none }
  else if ¬ (pyEndsWith (pyLower input) ".png" = true) then
    { outcome := .raised .valueError, st := st, errorSaving := false, saved := none }
  else
    match saveWebp w st.fs input req with
    | .error _ =>
      { outcome := .ok, st := st, errorSaving := true, saved := none }
    | .ok (res, fs') =>
      let st1 : St := { st with fs := fs' }
      let afterAttr : Except PyErr St :=
        if ¬ req.use_current_date then
          match copystat w st1.fs input res.filename with
          | some fs'' => .ok { st1 with fs := fs'', attrCopied := true }
          | none => .error .osError
        else .ok st1
      match afterAttr with
      | .error e => { outcome := .raised e, st := st1, errorSaving := false, saved := some res }
      | .ok st2 =>
        if req.delete_after then
          if ¬ w.trashAvail then
            let st3 : St := { st2 with prompted := true }
            if ¬ w.stdinOk then
              { outcome := .raised .eofError, st := st3, errorSaving := false, saved := some res }
            else if pyLower w.promptAnswer = "no" then
              { outcome := .ok, st := { st3 with promptDeclined := true },
                errorSaving := false, saved := some res }
            else
              { outcome := .ok, st := st3, errorSaving := false, saved := some res }
          else
            let a := absOf w.cwd input
            if ¬ w.trashOk a then
              { outcome := .raised .osError, st := st2, errorSaving := false, saved := some res }
            else
              let fs3 := st2.fs.filter (fun e => decide (e.path ≠ a))
              let st3 : St := { st2 with fs := fs3, trashed := st2.trashed ++ [a] }
              { outcome := .ok, st := st3, errorSaving := false, saved := some res }
        else
          { outcome := .ok, st := st2, errorSaving := false, saved := some res }

/-! ### The batch driver -/

/-- The list of inputs the directory walk hands to the converter: every
file under the resolved root whose name ends in png, addressed by the
same relative or absolute spelling the walk produces, namely the given
root joined with the path below it. -/
def walkInputs (w : World) (argsPath : String) : List String :=
  let absRoot := osJoin w.cwd argsPath
  (w.fs.filter (fun e => pyStartsWith e.path (absRoot ++ "/") && pyEndsWith e.path ".png")).map
    (fun e => argsPath ++ "/" ++ ⟨e.path.data.drop (absRoot ++ "/").data.length⟩)

/-- Outcome of a whole run of main. -/
structure MainResult where
  outcome : Outcome
  st : St
deriving DecidableEq

/-- Sequential processing of the walked files: the first uncaught
exception of a conversion aborts the run, exactly as an exception
escaping the loop body of main would. -/
def runBatch (w : World) (req : Request) : List String → St → MainResult
  | [], st => { outcome := .ok, st := st }
  | f :: rest, st =>
    let r := convert_png_to_webp w st f req
    match r.outcome with
    | .raised e => { outcome := .raised e, st := r.st }
    | .ok => runBatch w req rest r.st

/-- Model of main (source lines 187 to 235) after argument parsing: a
missing root prints an error and returns normally; otherwise every
walked png file is converted in sequence. -/
def mainRun (w : World) (req : Request) (argsPath : String) : MainResult :=
  let st0 : St := { fs := w.fs, trashed := [], prompted := false,
                    promptDeclined := false, attrCopied := false }
  if absOf w.cwd argsPath ∈ fsPaths w.fs ∨ absOf w.cwd argsPath ∈ w.dirs then
    runBatch w req (walkInputs w argsPath) st0
  else
    { outcome := .ok, st := st0 }

end Png2Webp

namespace Png2Webp

/-! ### Concrete environments used by the evaluation theorems and witnesses -/

/-- Default-style request: lossy, quality 80, method 6, copy the
attributes, keep the original. -/
def reqPlain : Request := ⟨false, 80, 6, false, false⟩

/-- Request with deletion enabled and attribute copying on. -/
def reqDelete : Request := ⟨false, 80, 6, false, true⟩

/-- Request with deletion enabled and attribute copying skipped. -/
def reqDeleteNoAttr : Request := ⟨false, 80, 6, true, true⟩

/-- Request with attribute copying skipped. -/
def reqNoAttr : Request := ⟨false, 80, 6, true, false⟩

/-- Run from /home/u with the script installed under /opt/tool and a
relative input path: the environment in which the save call and the
computed output path disagree. -/
def wMismatch : World :=
  { cwd := "/home/u", scriptDir := "/opt/tool", dirs := ["/home/u/d"],
    fs := [⟨"/home/u/d/a.png", 5, some ⟨[]⟩⟩, ⟨"/opt/tool/d/a.webp", 3, none⟩],
    now := 9, trashAvail := true, promptAnswer := "", stdinOk := true,
    saveOk := fun _ => true, copystatOk := fun _ => true, trashOk := fun _ => true }

/-- Starting state of the mismatch run. -/
def stMismatch : St := ⟨wMismatch.fs, [], false, false, false⟩

/-- Run whose single png converts fine but whose copystat call fails. -/
def wCopyFail : World :=
  { cwd := "/r", scriptDir := "/r", dirs := ["/r/d"],
    fs := [⟨"/r/d/a.png", 5, some ⟨[]⟩⟩],
    now := 9, trashAvail := true, promptAnswer := "", stdinOk := true,
    saveOk := fun _ => true, copystatOk := fun _ => false, trashOk := fun _ => true }

/-- Run over a directory holding one png with unparsable metadata and
one clean png. -/
def wBatchTwo : World :=
  { cwd := "/r", scriptDir := "/q", dirs := ["/r/d"],
    fs := [⟨"/r/d/bad.png", 5, some ⟨[("x", PyValue.other)]⟩⟩,
           ⟨"/r/d/good.png", 5, some ⟨[]⟩⟩],
    now := 9, trashAvail := true, promptAnswer := "", stdinOk := true,
    saveOk := fun _ => true, copystatOk := fun _ => false, trashOk := fun _ => true }

/-- Clean single-file run with the trash capability present. -/
def wTrash : World :=
  { cwd := "/c", scriptDir := "/c", dirs := ["/c"],
    fs := [⟨"/c/a.png", 5, some ⟨[]⟩⟩],
    now := 9, trashAvail := true, promptAnswer := "", stdinOk := true,
    saveOk := fun _ => true, copystatOk := fun _ => true, trashOk := fun _ => true }

/-- Starting state of the trash run. -/
def stTrash : St := ⟨wTrash.fs, [], false, false, false⟩

/-- Single-file run without the trash capability, the operator
answering No. -/
def wNoTrash : World :=
  { cwd := "/c", scriptDir := "/c", dirs := ["/c"],
    fs := [⟨"/c/a.png", 5, some ⟨[]⟩⟩],
    now := 9, trashAvail := false, promptAnswer := "No", stdinOk := true,
    saveOk := fun _ => true, copystatOk := fun _ => true, trashOk := fun _ => true }

/-- Starting state of the no-trash run. -/
def stNoTrash : St := ⟨wNoTrash.fs, [], false, false, false⟩

/-- Single-file run whose png carries a prompt value that is not valid
JSON. -/
def wBadJson : World :=
  { cwd := "/c", scriptDir := "/c", dirs := ["/c"],
    fs := [⟨"/c/b.png", 5, some ⟨[("prompt", PyValue.str "nope")]⟩⟩],
    now := 9, trashAvail := true, promptAnswer := "", stdinOk := true,
    saveOk := fun _ => true, copystatOk := fun _ => true, trashOk := fun _ => true }

/-- Starting state of the bad-JSON run. -/
def stBadJson : St := ⟨wBadJson.fs, [], false, false, false⟩

/-- Single-file run whose png carries a non-string metadata entry, as a
dpi tuple would be. -/
def wDpi : World :=
  { cwd := "/c", scriptDir := "/c", dirs := ["/c"],
    fs := [⟨"/c/c.png", 5, some ⟨[("dpi", PyValue.other)]⟩⟩],
    now := 9, trashAvail := true, promptAnswer := "", stdinOk := true,
    saveOk := fun _ => true, copystatOk := fun _ => true, trashOk := fun _ => true }

/-- Starting state of the non-string-metadata run. -/
def stDpi : St := ⟨wDpi.fs, [], false, false, false⟩


/-- Reformulation of the extraction loop that returns only the entries
it adds, in order.  It is proved below to agree with extractFrom
whenever the metadata keys are distinct, which a Python dict
guarantees. -/
def extractNew : List (String × PyValue) → Int → Except PyErr (List (Int × String))
  | [], _ => .ok []
  | (k, v) :: rest, t =>
    match pyJsonLoads v with
    | .error e => .error e
    | .ok j =>
      if k = "prompt" then
        (extractNew rest t).map (fun ns => (PROMPT_TAG, "Prompt:" ++ dumps j) :: ns)
      else if k = "workflow" then
        (extractNew rest (t - 1)).map (fun ns => (t, "Workflow:" ++ dumps j) :: ns)
      else
        (extractNew rest (t - 1)).map (fun ns => (t, k ++ ":" ++ dumps j) :: ns)

end Png2Webp


namespace Png2Webp

/-! ### Properties of the metadata extraction -/

theorem setTag_not_mem {m : List (Int × String)} {t : Int} {v : String}
    (h : t ∉ m.map Prod.fst) : setTag m t v = m ++ [(t, v)] := by
  simp [setTag, h]

theorem extractFrom_eq_extractNew :
    ∀ (md : List (String × PyValue)) (t : Int) (acc : List (Int × String)),
      t ≤ EXTRA_METADATA_TAG →
      (∀ p ∈ acc, p.1 = PROMPT_TAG ∨ (t < p.1 ∧ p.1 ≤ EXTRA_METADATA_TAG)) →
      (md.map Prod.fst).Nodup →
      ("prompt" ∈ md.map Prod.fst → ∀ p ∈ acc, p.1 ≠ PROMPT_TAG) →
      extractFrom md t acc = (extractNew md t).map (fun ns => acc ++ ns) := by
  intro md
  induction md with
  | nil => intro t acc _ _ _ _; simp [extractFrom, extractNew, Except.map]
  | cons hd rest ih =>
    obtain ⟨k, v⟩ := hd
    intro t acc ht hacc hnd hpr
    have hnd' : (rest.map Prod.fst).Nodup := by
      simp only [List.map_cons, List.nodup_cons] at hnd; exact hnd.2
    have hknr : k ∉ rest.map Prod.fst := by
      simp only [List.map_cons, List.nodup_cons] at hnd; exact hnd.1
    cases hv : pyJsonLoads v with
    | error e => simp [extractFrom, extractNew, hv, Except.map]
    | ok j =>
      by_cases hk : k = "prompt"
      · subst hk
        have hmem : PROMPT_TAG ∉ acc.map Prod.fst := by
          intro hc
          obtain ⟨p, hp, hp1⟩ := List.mem_map.mp hc
          exact hpr (by simp) p hp hp1
        have hstep := @setTag_not_mem acc PROMPT_TAG ("Prompt:" ++ dumps j) hmem
        have hrec := ih t (acc ++ [(PROMPT_TAG, "Prompt:" ++ dumps j)]) ht
          (by
            intro p hp
            rcases List.mem_append.mp hp with h | h
            · exact hacc p h
            · simp only [List.mem_singleton] at h; subst h; left; rfl)
          hnd'
          (fun hc => absurd hc (by simpa using hknr))
        simp only [extractFrom, extractNew, hv, if_pos rfl, hstep, hrec]
        cases extractNew rest t <;> simp [Except.map]
      · have ht272 : t ≠ PROMPT_TAG := by
          simp only [PROMPT_TAG, EXTRA_METADATA_TAG] at ht ⊢; omega
        have htag : t ∉ acc.map Prod.fst := by
          intro hc
          obtain ⟨p, hp, hp1⟩ := List.mem_map.mp hc
          rcases hacc p hp with h | ⟨h1, _⟩
          · exact ht272 (hp1 ▸ h)
          · omega
        have hprm : "prompt" ∈ rest.map Prod.fst →
            ∀ w, ∀ p ∈ acc ++ [(t, w)], p.1 ≠ PROMPT_TAG := by
          intro hc w p hp
          rcases List.mem_append.mp hp with h | h
          · exact hpr (by simp [hc]) p h
          · simp only [List.mem_singleton] at h; subst h; exact ht272
        have haccn : ∀ w, ∀ p ∈ acc ++ [(t, w)],
            p.1 = PROMPT_TAG ∨ (t - 1 < p.1 ∧ p.1 ≤ EXTRA_METADATA_TAG) := by
          intro w p hp
          rcases List.mem_append.mp hp with h | h
          · rcases hacc p h with h1 | ⟨h1, h2⟩
            · left; exact h1
            · right; constructor <;> omega
          · simp only [List.mem_singleton] at h; subst h
            right; constructor
            · simp only; omega
            · simpa using ht
        have ht' : t - 1 ≤ EXTRA_METADATA_TAG := by omega
        by_cases hw : k = "workflow"
        · subst hw
          have hstep := @setTag_not_mem acc t ("Workflow:" ++ dumps j) htag
          have hrec := ih (t - 1) (acc ++ [(t, "Workflow:" ++ dumps j)]) ht'
            (haccn _) hnd' (fun hc => hprm hc _)
          simp only [extractFrom, extractNew, hv, if_neg hk, if_pos rfl, hstep, hrec]
          cases extractNew rest (t - 1) <;> simp [Except.map]
        · have hstep := @setTag_not_mem acc t (k ++ ":" ++ dumps j) htag
          have hrec := ih (t - 1) (acc ++ [(t, k ++ ":" ++ dumps j)]) ht'
            (haccn _) hnd' (fun hc => hprm hc _)
          simp only [extractFrom, extractNew, hv, if_neg hk, if_neg hw, hstep, hrec]
          cases extractNew rest (t - 1) <;> simp [Except.map]

/-- On a metadata mapping with distinct keys, the extraction of
saveWebp is exactly the entry list computed by extractNew. -/
theorem extractMetadata_eq {md : List (String × PyValue)}
    (hnd : (md.map Prod.fst).Nodup) :
    extractMetadata md = extractNew md EXTRA_METADATA_TAG := by
  have := extractFrom_eq_extractNew md EXTRA_METADATA_TAG [] le_rfl
    (by intro p hp; cases hp) hnd (by intro _ p hp; cases hp)
  rw [extractMetadata, this]
  cases extractNew md EXTRA_METADATA_TAG <;> simp [Except.map]

/-- Every tag produced by the extraction is either the prompt tag or at
most the running extra tag. -/
theorem extractNew_tag_le :
    ∀ (md : List (String × PyValue)) (t : Int) (ns : List (Int × String)),
      extractNew md t = .ok ns → ∀ p ∈ ns, p.1 = PROMPT_TAG ∨ p.1 ≤ t := by
  intro md
  induction md with
  | nil => intro t ns h p hp; simp [extractNew] at h; subst h; cases hp
  | cons hd rest ih =>
    obtain ⟨k, v⟩ := hd
    intro t ns h p hp
    cases hv : pyJsonLoads v with
    | error e => simp [extractNew, hv] at h
    | ok j =>
      by_cases hk : k = "prompt"
      · subst hk
        cases hrec : extractNew rest t with
        | error e => simp [extractNew, hv, hrec, Except.map] at h
        | ok ns' =>
          simp [extractNew, hv, hrec, Except.map] at h
          subst h
          rcases hp with _ | hp
          · left; rfl
          · exact ih t ns' hrec p (by assumption)
      · cases hrec : extractNew rest (t - 1) with
        | error e => simp [extractNew, hv, hk, hrec, Except.map] at h
        | ok ns' =>
          by_cases hw : k = "workflow" <;>
            simp [extractNew, hv, hk, hw, hrec, Except.map] at h <;>
            subst h <;>
            rcases hp with _ | hp
          · right; omega
          · rcases ih (t - 1) ns' hrec p (by assumption) with h1 | h1
            · left; exact h1
            · right; omega
          · right; omega
          · rcases ih (t - 1) ns' hrec p (by assumption) with h1 | h1
            · left; exact h1
            · right; omega

/-- Without a prompt key every produced tag is at most the running extra
tag, in particular below the prompt tag. -/
theorem extractNew_tag_le_of_no_prompt :
    ∀ (md : List (String × PyValue)) (t : Int) (ns : List (Int × String)),
      "prompt" ∉ md.map Prod.fst →
      extractNew md t = .ok ns → ∀ p ∈ ns, p.1 ≤ t := by
  intro md
  induction md with
  | nil => intro t ns _ h p hp; simp [extractNew] at h; subst h; cases hp
  | cons hd rest ih =>
    obtain ⟨k, v⟩ := hd
    intro t ns hnp h p hp
    have hk : ¬ k = "prompt" := by
      intro hc; exact hnp (by simp [hc])
    have hnp2 : "prompt" ∉ rest.map Prod.fst := by
      intro hc; exact hnp (by simp [hc])
    cases hv : pyJsonLoads v with
    | error e => simp [extractNew, hv] at h
    | ok j =>
      cases hrec : extractNew rest (t - 1) with
      | error e => simp [extractNew, hv, hk, hrec, Except.map] at h
      | ok ns' =>
        by_cases hw : k = "workflow" <;>
          simp [extractNew, hv, hk, hw, hrec, Except.map] at h <;>
          subst h <;>
          rcases hp with _ | hp
        · omega
        · have := ih (t - 1) ns' hnp2 hrec p (by assumption); omega
        · omega
        · have := ih (t - 1) ns' hnp2 hrec p (by assumption); omega

/-- Tags produced by extraction from a mapping with distinct keys are
pairwise distinct. -/
theorem extractNew_nodup :
    ∀ (md : List (String × PyValue)) (t : Int) (ns : List (Int × String)),
      (md.map Prod.fst).Nodup → t ≤ EXTRA_METADATA_TAG →
      extractNew md t = .ok ns → (ns.map Prod.fst).Nodup := by
  intro md
  induction md with
  | nil => intro t ns _ _ h; simp [extractNew] at h; subst h; simp
  | cons hd rest ih =>
    obtain ⟨k, v⟩ := hd
    intro t ns hnd ht h
    have hnd2 : (rest.map Prod.fst).Nodup := by
      simp only [List.map_cons, List.nodup_cons] at hnd; exact hnd.2
    have hknr : k ∉ rest.map Prod.fst := by
      simp only [List.map_cons, List.nodup_cons] at hnd; exact hnd.1
    cases hv : pyJsonLoads v with
    | error e => simp [extractNew, hv] at h
    | ok j =>
      by_cases hk : k = "prompt"
      · subst hk
        cases hrec : extractNew rest t with
        | error e => simp [extractNew, hv, hrec, Except.map] at h
        | ok ns2 =>
          simp [extractNew, hv, hrec, Except.map] at h
          subst h
          have hbound := extractNew_tag_le_of_no_prompt rest t ns2
            (by simpa using hknr) hrec
          simp only [List.map_cons, List.nodup_cons]
          refine ⟨?_, ih t ns2 hnd2 ht hrec⟩
          intro hc
          obtain ⟨p, hp, hp1⟩ := List.mem_map.mp hc
          have := hbound p hp
          rw [hp1] at this
          simp only [PROMPT_TAG, EXTRA_METADATA_TAG] at this ht
          omega
      · cases hrec : extractNew rest (t - 1) with
        | error e => simp [extractNew, hv, hk, hrec, Except.map] at h
        | ok ns2 =>
          have hbound := extractNew_tag_le rest (t - 1) ns2 hrec
          have ht2 : t - 1 ≤ EXTRA_METADATA_TAG := by omega
          have hnotin : t ∉ ns2.map Prod.fst := by
            intro hc
            obtain ⟨p, hp, hp1⟩ := List.mem_map.mp hc
            rcases hbound p hp with h1 | h1
            · rw [hp1] at h1
              simp only [PROMPT_TAG, EXTRA_METADATA_TAG] at h1 ht
              omega
            · omega
          by_cases hw : k = "workflow" <;>
            simp [extractNew, hv, hk, hw, hrec, Except.map] at h <;>
            subst h <;>
            simp only [List.map_cons, List.nodup_cons] <;>
            exact ⟨hnotin, ih (t - 1) ns2 hnd2 ht2 hrec⟩

/-- The prompt entry: present exactly with the canonical value, and
nothing else ever occupies the prompt tag. -/
theorem extractNew_prompt :
    ∀ (md : List (String × PyValue)) (t : Int) (ns : List (Int × String))
      (v : String) (j : Json),
      (md.map Prod.fst).Nodup → t ≤ EXTRA_METADATA_TAG →
      ("prompt", PyValue.str v) ∈ md → jsonParse v = some j →
      extractNew md t = .ok ns →
      (PROMPT_TAG, "Prompt:" ++ dumps j) ∈ ns ∧
        ∀ s, (PROMPT_TAG, s) ∈ ns → s = "Prompt:" ++ dumps j := by
  intro md
  induction md with
  | nil => intro t ns v j _ _ hmem _ _; cases hmem
  | cons hd rest ih =>
    obtain ⟨k, val⟩ := hd
    intro t ns v j hnd ht hmem hparse h
    have hnd2 : (rest.map Prod.fst).Nodup := by
      simp only [List.map_cons, List.nodup_cons] at hnd; exact hnd.2
    have hknr : k ∉ rest.map Prod.fst := by
      simp only [List.map_cons, List.nodup_cons] at hnd; exact hnd.1
    cases hv : pyJsonLoads val with
    | error e => simp [extractNew, hv] at h
    | ok j2 =>
      by_cases hk : k = "prompt"
      · subst hk
        have hval : val = PyValue.str v := by
          rcases List.mem_cons.mp hmem with h1 | h1
          · exact (congrArg Prod.snd h1).symm
          · exact absurd (List.mem_map.mpr ⟨_, h1, rfl⟩) hknr
        subst hval
        have hj : j2 = j := by
          simp only [pyJsonLoads, hparse] at hv
          injection hv with h2
          exact h2.symm
        subst hj
        cases hrec : extractNew rest t with
        | error e => simp [extractNew, hv, hrec, Except.map] at h
        | ok ns2 =>
          simp [extractNew, hv, hrec, Except.map] at h
          subst h
          have hbound := extractNew_tag_le_of_no_prompt rest t ns2
            (by simpa using hknr) hrec
          constructor
          · exact List.mem_cons_self _ _
          · intro s hs
            rcases List.mem_cons.mp hs with h1 | h1
            · exact congrArg Prod.snd h1
            · exfalso
              have := hbound _ h1
              simp only [PROMPT_TAG, EXTRA_METADATA_TAG] at this ht
              omega
      · have hmem2 : ("prompt", PyValue.str v) ∈ rest := by
          rcases List.mem_cons.mp hmem with h1 | h1
          · exact absurd (congrArg Prod.fst h1.symm) hk
          · exact h1
        cases hrec : extractNew rest (t - 1) with
        | error e => simp [extractNew, hv, hk, hrec, Except.map] at h
        | ok ns2 =>
          have ht2 : t - 1 ≤ EXTRA_METADATA_TAG := by omega
          have hih := ih (t - 1) ns2 v j hnd2 ht2 hmem2 hparse hrec
          have ht272 : t ≠ PROMPT_TAG := by
            simp only [PROMPT_TAG, EXTRA_METADATA_TAG] at ht ⊢; omega
          by_cases hw : k = "workflow" <;>
            simp [extractNew, hv, hk, hw, hrec, Except.map] at h <;>
            subst h <;>
            refine ⟨List.mem_cons_of_mem _ hih.1, ?_⟩ <;>
            intro s hs <;>
            rcases List.mem_cons.mp hs with h1 | h1
          · exact absurd (congrArg Prod.fst h1.symm) ht272
          · exact hih.2 s h1
          · exact absurd (congrArg Prod.fst h1.symm) ht272
          · exact hih.2 s h1

/-- Position n of the non-prompt keys receives tag t minus n with the
formatted value. -/
theorem extractNew_extra :
    ∀ (md : List (String × PyValue)) (t : Int) (ns : List (Int × String)),
      extractNew md t = .ok ns →
      ∀ (n : Nat) (k : String) (v : PyValue),
        (md.filter (fun p => p.1 ≠ "prompt"))[n]? = some (k, v) →
        ∃ j, pyJsonLoads v = .ok j ∧
          (t - (n : Int),
            if k = "workflow" then "Workflow:" ++ dumps j
            else k ++ ":" ++ dumps j) ∈ ns := by
  intro md
  induction md with
  | nil => intro t ns _ n k v hget; simp at hget
  | cons hd rest ih =>
    obtain ⟨k0, v0⟩ := hd
    intro t ns h n k v hget
    cases hv : pyJsonLoads v0 with
    | error e => simp [extractNew, hv] at h
    | ok j =>
      by_cases hk : k0 = "prompt"
      · subst hk
        cases hrec : extractNew rest t with
        | error e => simp [extractNew, hv, hrec, Except.map] at h
        | ok ns2 =>
          simp [extractNew, hv, hrec, Except.map] at h
          subst h
          have hfil : ((("prompt", v0) :: rest).filter (fun p => p.1 ≠ "prompt"))
              = rest.filter (fun p => p.1 ≠ "prompt") := by
            simp [List.filter_cons]
          rw [hfil] at hget
          obtain ⟨j2, hj2, hmem⟩ := ih t ns2 hrec n k v hget
          exact ⟨j2, hj2, List.mem_cons_of_mem _ hmem⟩
      · cases hrec : extractNew rest (t - 1) with
        | error e => simp [extractNew, hv, hk, hrec, Except.map] at h
        | ok ns2 =>
          have hfil : (((k0, v0) :: rest).filter (fun p => p.1 ≠ "prompt"))
              = (k0, v0) :: rest.filter (fun p => p.1 ≠ "prompt") := by
            simp [List.filter_cons, hk]
          rw [hfil] at hget
          have hsucc : ∀ n2 : Nat, n = n2 + 1 →
              (rest.filter (fun p => p.1 ≠ "prompt"))[n2]? = some (k, v) →
              ∃ j2, pyJsonLoads v = .ok j2 ∧
                (t - (n : Int),
                  if k = "workflow" then "Workflow:" ++ dumps j2
                  else k ++ ":" ++ dumps j2) ∈ ns2 := by
            intro n2 hn hget2
            obtain ⟨j2, hj2, hmem⟩ := ih (t - 1) ns2 hrec n2 k v hget2
            refine ⟨j2, hj2, ?_⟩
            have hcast : t - (n : Int) = t - 1 - (n2 : Int) := by
              subst hn; push_cast; ring
            rw [hcast]
            exact hmem
          by_cases hw : k0 = "workflow"
          · subst hw
            simp [extractNew, hv, hk, hrec, Except.map] at h
            subst h
            cases n with
            | zero =>
              simp only [List.getElem?_cons_zero, Option.some.injEq] at hget
              obtain ⟨hk1, hv1⟩ : "workflow" = k ∧ v0 = v := by
                constructor
                · exact congrArg Prod.fst hget
                · exact congrArg Prod.snd hget
              subst hv1
              refine ⟨j, hv, ?_⟩
              rw [← hk1]
              simp
            | succ n2 =>
              simp only [List.getElem?_cons_succ] at hget
              obtain ⟨j2, hj2, hmem⟩ := hsucc n2 rfl hget
              exact ⟨j2, hj2, List.mem_cons_of_mem _ hmem⟩
          · simp [extractNew, hv, hk, hw, hrec, Except.map] at h
            subst h
            cases n with
            | zero =>
              simp only [List.getElem?_cons_zero, Option.some.injEq] at hget
              obtain ⟨hk1, hv1⟩ : k0 = k ∧ v0 = v := by
                constructor
                · exact congrArg Prod.fst hget
                · exact congrArg Prod.snd hget
              subst hv1
              refine ⟨j, hv, ?_⟩
              rw [← hk1]
              simp [hw]
            | succ n2 =>
              simp only [List.getElem?_cons_succ] at hget
              obtain ⟨j2, hj2, hmem⟩ := hsucc n2 rfl hget
              exact ⟨j2, hj2, List.mem_cons_of_mem _ hmem⟩

/-- A single unparsable metadata value aborts the whole extraction with
an exception, whatever the starting tag and accumulator. -/
theorem extractFrom_error_of_bad :
    ∀ (md : List (String × PyValue)) (t : Int) (acc : List (Int × String)),
      (∃ p ∈ md, ∃ e, pyJsonLoads p.2 = .error e) →
      ∃ e, extractFrom md t acc = .error e := by
  intro md
  induction md with
  | nil => intro t acc hbad; obtain ⟨p, hp, _⟩ := hbad; cases hp
  | cons hd rest ih =>
    obtain ⟨k, v⟩ := hd
    intro t acc hbad
    cases hv : pyJsonLoads v with
    | error e => exact ⟨e, by simp [extractFrom, hv]⟩
    | ok j =>
      obtain ⟨p, hp, e, he⟩ := hbad
      have hp2 : p ∈ rest := by
        rcases List.mem_cons.mp hp with h1 | h1
        · exfalso; rw [h1] at he; rw [he] at hv; cases hv
        · exact h1
      by_cases hk : k = "prompt"
      · subst hk
        obtain ⟨e2, he2⟩ := ih t (setTag acc PROMPT_TAG ("Prompt:" ++ dumps j)) ⟨p, hp2, e, he⟩
        exact ⟨e2, by simp [extractFrom, hv, he2]⟩
      · by_cases hw : k = "workflow"
        · subst hw
          obtain ⟨e2, he2⟩ := ih (t - 1) (setTag acc t ("Workflow:" ++ dumps j)) ⟨p, hp2, e, he⟩
          exact ⟨e2, by simp [extractFrom, hv, hk, he2]⟩
        · obtain ⟨e2, he2⟩ := ih (t - 1) (setTag acc t (k ++ ":" ++ dumps j)) ⟨p, hp2, e, he⟩
          exact ⟨e2, by simp [extractFrom, hv, hk, hw, he2]⟩

/-! ### Claim theorems on the metadata extraction -/

/-- C1: for every source metadata mapping (distinct keys, as in a dict)
containing the key prompt with a value that parses as JSON, a completed
extraction stores at PROMPT_TAG exactly the canonical re-serialization
of that value prefixed with the literal Prompt marker, and nothing else
ever occupies PROMPT_TAG. -/
theorem saveWebp_prompt_tag (md : List (String × PyValue)) (v : String) (j : Json)
    (m : List (Int × String))
    (hnd : (md.map Prod.fst).Nodup)
    (hmem : ("prompt", PyValue.str v) ∈ md)
    (hparse : jsonParse v = some j)
    (hok : extractMetadata md = .ok m) :
    (PROMPT_TAG, "Prompt:" ++ dumps j) ∈ m ∧
      ∀ s, (PROMPT_TAG, s) ∈ m → s = "Prompt:" ++ dumps j := by
  rw [extractMetadata_eq hnd] at hok
  exact extractNew_prompt md EXTRA_METADATA_TAG m v j hnd le_rfl hmem hparse hok

/-- Witness for saveWebp_prompt_tag: the metadata mapping with the single
pair prompt maps to the JSON object with field a equal to 1; the
extraction stores Prompt followed by the canonical form with a space
after the colon, at tag 0x0110. -/
theorem saveWebp_prompt_tag_witness :
    extractMetadata [("prompt", PyValue.str "\x7b\"a\":1\x7d")] =
        .ok [((272 : Int), "Prompt:\x7b\"a\": 1\x7d")] ∧
      (PROMPT_TAG, "Prompt:" ++ dumps (Json.obj [("a", Json.num 1)])) ∈
        [((272 : Int), "Prompt:\x7b\"a\": 1\x7d")] := by
  refine ⟨by rfl, ?_⟩
  exact (saveWebp_prompt_tag [("prompt", PyValue.str "\x7b\"a\":1\x7d")]
    "\x7b\"a\":1\x7d" (Json.obj [("a", Json.num 1)])
    [((272 : Int), "Prompt:\x7b\"a\": 1\x7d")]
    (by decide) (by decide) (by rfl) (by rfl)).1

/-- C2: every key other than prompt is assigned the next tag downward
from EXTRA_METADATA_TAG in iteration order: the key at position n of
the non-prompt subsequence lands at tag EXTRA_METADATA_TAG minus n,
with value Workflow prefix for the workflow key and key colon json
for the others. -/
theorem saveWebp_extra_tags (md : List (String × PyValue)) (m : List (Int × String))
    (hnd : (md.map Prod.fst).Nodup)
    (hok : extractMetadata md = .ok m) :
    ∀ (n : Nat) (k : String) (v : PyValue),
      (md.filter (fun p => p.1 ≠ "prompt"))[n]? = some (k, v) →
      ∃ j, pyJsonLoads v = .ok j ∧
        (EXTRA_METADATA_TAG - (n : Int),
          if k = "workflow" then "Workflow:" ++ dumps j
          else k ++ ":" ++ dumps j) ∈ m := by
  rw [extractMetadata_eq hnd] at hok
  exact fun n k v hget => extractNew_extra md EXTRA_METADATA_TAG m hok n k v hget

/-- Witness for saveWebp_extra_tags: a workflow key with value the empty
object, processed first, lands at the first extra slot 0x010f as the
Workflow marker plus the empty object; the following generic key foo
with a quoted string value lands one tag lower. -/
theorem saveWebp_extra_tags_witness :
    (∃ j, pyJsonLoads (PyValue.str "\x7b\x7d") = .ok j ∧
      (EXTRA_METADATA_TAG - ((0 : Nat) : Int), "Workflow:" ++ dumps j) ∈
        [((271 : Int), "Workflow:\x7b\x7d"), ((270 : Int), "foo:\"bar\"")]) ∧
    (∃ j, pyJsonLoads (PyValue.str "\"bar\"") = .ok j ∧
      (EXTRA_METADATA_TAG - ((1 : Nat) : Int), "foo:" ++ dumps j) ∈
        [((271 : Int), "Workflow:\x7b\x7d"), ((270 : Int), "foo:\"bar\"")]) := by
  constructor
  · have h := saveWebp_extra_tags
      [("workflow", PyValue.str "\x7b\x7d"), ("foo", PyValue.str "\"bar\"")]
      [((271 : Int), "Workflow:\x7b\x7d"), ((270 : Int), "foo:\"bar\"")]
      (by decide) (by rfl) 0 "workflow" (PyValue.str "\x7b\x7d") (by decide)
    simpa using h
  · have h := saveWebp_extra_tags
      [("workflow", PyValue.str "\x7b\x7d"), ("foo", PyValue.str "\"bar\"")]
      [((271 : Int), "Workflow:\x7b\x7d"), ((270 : Int), "foo:\"bar\"")]
      (by decide) (by rfl) 1 "foo" (PyValue.str "\"bar\"") (by decide)
    simpa using h

/-- Each key of the metadata mapping contributes exactly one entry to
the extraction result. -/
theorem extractNew_length :
    ∀ (md : List (String × PyValue)) (t : Int) (ns : List (Int × String)),
      extractNew md t = .ok ns → ns.length = md.length := by
  intro md
  induction md with
  | nil => intro t ns h; simp [extractNew] at h; subst h; rfl
  | cons hd rest ih =>
    obtain ⟨k, v⟩ := hd
    intro t ns h
    cases hv : pyJsonLoads v with
    | error e => simp [extractNew, hv] at h
    | ok j =>
      by_cases hk : k = "prompt"
      · subst hk
        cases hrec : extractNew rest t with
        | error e => simp [extractNew, hv, hrec, Except.map] at h
        | ok ns2 =>
          simp [extractNew, hv, hrec, Except.map] at h
          subst h
          simp [ih t ns2 hrec]
      · cases hrec : extractNew rest (t - 1) with
        | error e => simp [extractNew, hv, hk, hrec, Except.map] at h
        | ok ns2 =>
          by_cases hw : k = "workflow" <;>
            simp [extractNew, hv, hk, hw, hrec, Except.map] at h <;>
            subst h <;>
            simp [ih (t - 1) ns2 hrec]

/-- The entry at position n of the extraction result belongs to the key
at position n of the metadata mapping, and it sits at the prompt tag
exactly when that key is prompt. -/
theorem extractNew_pos :
    ∀ (md : List (String × PyValue)) (t : Int) (ns : List (Int × String)),
      extractNew md t = .ok ns → t ≤ EXTRA_METADATA_TAG →
      ∀ (n : Nat) (k : String) (v : PyValue), md[n]? = some (k, v) →
        ∃ tag s, ns[n]? = some (tag, s) ∧ (tag = PROMPT_TAG ↔ k = "prompt") := by
  intro md
  induction md with
  | nil => intro t ns _ _ n k v hget; simp at hget
  | cons hd rest ih =>
    obtain ⟨k0, v0⟩ := hd
    intro t ns h ht n k v hget
    cases hv : pyJsonLoads v0 with
    | error e => simp [extractNew, hv] at h
    | ok j =>
      by_cases hk : k0 = "prompt"
      · subst hk
        cases hrec : extractNew rest t with
        | error e => simp [extractNew, hv, hrec, Except.map] at h
        | ok ns2 =>
          simp [extractNew, hv, hrec, Except.map] at h
          subst h
          cases n with
          | zero =>
            simp only [List.getElem?_cons_zero, Option.some.injEq] at hget
            have hk1 : "prompt" = k := congrArg Prod.fst hget
            refine ⟨PROMPT_TAG, "Prompt:" ++ dumps j, by simp, ?_⟩
            rw [← hk1]
            simp
          | succ n2 =>
            simp only [List.getElem?_cons_succ] at hget
            obtain ⟨tag, s, hs, hiff⟩ := ih t ns2 hrec ht n2 k v hget
            exact ⟨tag, s, by simpa using hs, hiff⟩
      · have ht2 : t - 1 ≤ EXTRA_METADATA_TAG := by omega
        have htne : ¬ (t = PROMPT_TAG) := by
          simp only [PROMPT_TAG, EXTRA_METADATA_TAG] at ht ⊢
          omega
        cases hrec : extractNew rest (t - 1) with
        | error e => simp [extractNew, hv, hk, hrec, Except.map] at h
        | ok ns2 =>
          by_cases hw : k0 = "workflow"
          · subst hw
            simp [extractNew, hv, hk, hrec, Except.map] at h
            subst h
            cases n with
            | zero =>
              simp only [List.getElem?_cons_zero, Option.some.injEq] at hget
              have hk1 : "workflow" = k := congrArg Prod.fst hget
              refine ⟨t, "Workflow:" ++ dumps j, by simp, ?_⟩
              constructor
              · intro hcc; exact absurd hcc htne
              · intro hcc; exact absurd (hk1.trans hcc) (by decide)
            | succ n2 =>
              simp only [List.getElem?_cons_succ] at hget
              obtain ⟨tag, s, hs, hiff⟩ := ih (t - 1) ns2 hrec ht2 n2 k v hget
              exact ⟨tag, s, by simpa using hs, hiff⟩
          · simp [extractNew, hv, hk, hw, hrec, Except.map] at h
            subst h
            cases n with
            | zero =>
              simp only [List.getElem?_cons_zero, Option.some.injEq] at hget
              have hk1 : k0 = k := congrArg Prod.fst hget
              refine ⟨t, k0 ++ ":" ++ dumps j, by simp, ?_⟩
              constructor
              · intro hcc; exact absurd hcc htne
              · intro hcc; exact absurd (hk1.trans hcc) hk
            | succ n2 =>
              simp only [List.getElem?_cons_succ] at hget
              obtain ⟨tag, s, hs, hiff⟩ := ih (t - 1) ns2 hrec ht2 n2 k v hget
              exact ⟨tag, s, by simpa using hs, hiff⟩

/-- C7: on a metadata mapping with distinct keys (a dict), a completed
extraction assigns every key its own entry: the map has exactly one
entry per key, in iteration order, the tag identifiers are pairwise
distinct (so no two non-prompt keys receive the same tag and no
assignment overwrites another), and the entry of position n sits at the
prompt tag 0x0110 exactly when the key of position n is prompt, so the
synthetic tags drawn downward from 0x010f never collide with the
prompt tag. -/
theorem saveWebp_tag_assignment (md : List (String × PyValue)) (m : List (Int × String))
    (hnd : (md.map Prod.fst).Nodup)
    (hok : extractMetadata md = .ok m) :
    m.length = md.length ∧
    (m.map Prod.fst).Nodup ∧
    ∀ (n : Nat) (k : String) (v : PyValue), md[n]? = some (k, v) →
      ∃ tag s, m[n]? = some (tag, s) ∧ (tag = PROMPT_TAG ↔ k = "prompt") := by
  rw [extractMetadata_eq hnd] at hok
  exact ⟨extractNew_length md EXTRA_METADATA_TAG m hok,
    extractNew_nodup md EXTRA_METADATA_TAG m hnd le_rfl hok,
    fun n k v hget => extractNew_pos md EXTRA_METADATA_TAG m hok le_rfl n k v hget⟩

/-- Witness for saveWebp_tag_assignment: a mapping with a prompt, a
workflow and a generic key yields three entries at the pairwise
distinct tags 0x0110, 0x010f, 0x010e, and the workflow key at position
one occupies a tag different from the prompt tag. -/
theorem saveWebp_tag_assignment_witness :
    ([((272 : Int), "Prompt:1"), ((271 : Int), "Workflow:2"),
        ((270 : Int), "foo:3")].length
      = ([("prompt", PyValue.str "1"), ("workflow", PyValue.str "2"),
          ("foo", PyValue.str "3")] : List (String × PyValue)).length) ∧
    (([((272 : Int), "Prompt:1"), ((271 : Int), "Workflow:2"),
        ((270 : Int), "foo:3")].map Prod.fst).Nodup) ∧
    (∃ tag s, [((272 : Int), "Prompt:1"), ((271 : Int), "Workflow:2"),
        ((270 : Int), "foo:3")][(1 : Nat)]? = some (tag, s) ∧
      (tag = PROMPT_TAG ↔ ("workflow" : String) = "prompt")) := by
  have h := saveWebp_tag_assignment
    [("prompt", PyValue.str "1"), ("workflow", PyValue.str "2"), ("foo", PyValue.str "3")]
    [((272 : Int), "Prompt:1"), ((271 : Int), "Workflow:2"), ((270 : Int), "foo:3")]
    (by decide) (by rfl)
  exact ⟨h.1, h.2.1, h.2.2 1 "workflow" (PyValue.str "2") (by decide)⟩

end Png2Webp

namespace Png2Webp

/-! ### Claim theorems on the converter -/

theorem fsLookup_mem {fs : List FsEntry} {p : String} {e : FsEntry}
    (h : fsLookup fs p = some e) : p ∈ fsPaths fs := by
  have hmem : e ∈ fs := List.mem_of_find?_eq_some h
  have hpred := List.find?_some h
  have hpath : e.path = p := by simpa using hpred
  exact hpath ▸ List.mem_map.mpr ⟨e, hmem, rfl⟩

theorem self_ne_append_singleton (l : List String) (a : String) :
    ¬ l = l ++ [a] := by simp

/-- C5: the source file is moved to trash exactly when deletion was
requested, the whole conversion of the file ran to a normal return with
a successful save, and the trash capability is present; a conversion
whose save failed trashes nothing and leaves the file list unchanged,
and a trashed source is gone from the file list afterwards.  Moving to
trash is the only removal the disposal step performs. -/
theorem convert_delete_after_policy (w : World) (st : St) (input : String)
    (req : Request) (r : ConvResult)
    (hr : r = convert_png_to_webp w st input req) :
    (r.outcome = Outcome.ok →
      (r.st.trashed = st.trashed ++ [absOf w.cwd input] ↔
        req.delete_after = true ∧ w.trashAvail = true ∧ r.errorSaving = false)) ∧
    (r.st.trashed = st.trashed ∨ r.st.trashed = st.trashed ++ [absOf w.cwd input]) ∧
    (r.st.trashed = st.trashed ++ [absOf w.cwd input] →
      absOf w.cwd input ∉ fsPaths r.st.fs) ∧
    (r.errorSaving = true → r.st.trashed = st.trashed ∧ r.st.fs = st.fs) := by
  unfold convert_png_to_webp at hr
  split at hr
  · subst hr; simp
  · split at hr
    · subst hr; simp
    · split at hr
      · subst hr; simp
      · rename_i res fs' hsv
        simp only at hr
        split at hr
        · subst hr; simp
        · rename_i st2 hattr
          have hst2 : st2.trashed = st.trashed := by
            split at hattr
            · split at hattr
              · injection hattr with h3; subst h3; rfl
              · cases hattr
            · injection hattr with h3; subst h3; rfl
          by_cases hd : req.delete_after
          · rw [if_pos hd] at hr
            by_cases htr : w.trashAvail
            · rw [if_neg (by simpa using htr)] at hr
              by_cases hto : w.trashOk (absOf w.cwd input) = true
              · rw [if_neg (show ¬ ¬ w.trashOk (absOf w.cwd input) = true by
                  simp [hto])] at hr
                subst hr
                simp only [hd, htr]
                refine ⟨?_, ?_, ?_, ?_⟩
                · intro _
                  simp [hst2]
                · right; simp [hst2]
                · intro _
                  simp only [fsPaths, List.mem_map]
                  rintro ⟨e, he, hpe⟩
                  have := List.of_mem_filter he
                  simp [hpe] at this
                · intro hfalse; cases hfalse
              · rw [if_pos (show ¬ w.trashOk (absOf w.cwd input) = true by
                  simp [hto])] at hr
                subst hr
                have hne := self_ne_append_singleton st.trashed (absOf w.cwd input)
                simp [hst2, hne]
            · rw [if_pos (by simpa using htr)] at hr
              have hne := self_ne_append_singleton st.trashed (absOf w.cwd input)
              by_cases hin : w.stdinOk = true
              · rw [if_neg (show ¬ ¬ w.stdinOk = true by simp [hin])] at hr
                split at hr <;> subst hr <;>
                  simp [hst2, htr, hne]
              · rw [if_pos (show ¬ w.stdinOk = true by simp [hin])] at hr
                subst hr
                simp [hst2, htr, hne]
          · rw [if_neg hd] at hr
            subst hr
            have hne := self_ne_append_singleton st.trashed (absOf w.cwd input)
            simp [hst2, hd, hne]

/-- C9: with deletion requested and the trash capability missing, no
file is ever moved to trash, whatever the conversion outcome or the
interactive answer; when the conversion reaches the disposal step
normally the operator is prompted, and the declined flag records
exactly an answer of no (case-insensitively), the one answer that ends
the call early, while any other answer lets the call finish without
deleting. -/
theorem convert_trash_unavailable_gate (w : World) (st : St) (input : String)
    (req : Request) (r : ConvResult)
    (hr : r = convert_png_to_webp w st input req)
    (hdel : req.delete_after = true)
    (hun : w.trashAvail = false)
    (hpd : st.promptDeclined = false) :
    r.st.trashed = st.trashed ∧
    (r.outcome = Outcome.ok → r.errorSaving = false →
      r.st.prompted = true ∧
        (r.st.promptDeclined = true ↔ pyLower w.promptAnswer = "no")) := by
  unfold convert_png_to_webp at hr
  split at hr
  · subst hr; simp
  · split at hr
    · subst hr; simp
    · split at hr
      · subst hr; simp
      · rename_i res fs' hsv
        simp only at hr
        split at hr
        · subst hr; simp
        · rename_i st2 hattr
          have hst2 : st2.trashed = st.trashed ∧ st2.promptDeclined = false := by
            split at hattr
            · split at hattr
              · injection hattr with h3; subst h3; exact ⟨rfl, hpd⟩
              · cases hattr
            · injection hattr with h3; subst h3; exact ⟨rfl, hpd⟩
          rw [if_pos (show ¬ w.trashAvail = true by simp [hun])] at hr
          by_cases hin : w.stdinOk = true
          · rw [if_neg (show ¬ ¬ w.stdinOk = true by simp [hin])] at hr
            by_cases hans : pyLower w.promptAnswer = "no"
            · rw [if_pos hans] at hr
              subst hr
              exact ⟨hst2.1, fun _ _ => ⟨rfl, by simp [hans]⟩⟩
            · rw [if_neg hans] at hr
              subst hr
              exact ⟨hst2.1, fun _ _ => ⟨rfl, by simp [hst2.2, hans]⟩⟩
          · rw [if_pos (show ¬ w.stdinOk = true by simp [hin])] at hr
            subst hr
            exact ⟨hst2.1, fun hok _ => by simp at hok⟩

theorem saveWebp_error_of_bad_value (w : World) (fs : List FsEntry) (input : String)
    (req : Request) (entry : FsEntry) (img : SourceImage)
    (hlook : fsLookup fs (absOf w.cwd input) = some entry)
    (himg : entry.img = some img)
    (hbad : ∃ p ∈ img.metadata, ∃ e, pyJsonLoads p.2 = .error e) :
    ∃ e, saveWebp w fs input req = .error e := by
  obtain ⟨e, he⟩ := extractFrom_error_of_bad img.metadata EXTRA_METADATA_TAG [] hbad
  refine ⟨e, ?_⟩
  unfold saveWebp
  rw [hlook]
  simp only [himg, he]
  rfl

/-- C6: a metadata value that is not valid JSON makes saveWebp raise
out of the extraction loop, before the encoder runs, so the conversion
of that file fails: the converter records the error, returns normally
to the batch, creates no output file and trashes nothing. -/
theorem convert_invalid_json_fails (w : World) (st : St) (input : String)
    (req : Request) (entry : FsEntry) (img : SourceImage) (r : ConvResult)
    (hr : r = convert_png_to_webp w st input req)
    (hlook : fsLookup st.fs (absOf w.cwd input) = some entry)
    (himg : entry.img = some img)
    (hbad : ∃ p ∈ img.metadata, ∃ s, p.2 = PyValue.str s ∧ jsonParse s = none) :
    (∃ e, saveWebp w st.fs input req = .error e) ∧
    r.st.fs = st.fs ∧ r.saved = none ∧ r.st.trashed = st.trashed ∧
    (pyEndsWith (pyLower input) ".png" = true →
      r.errorSaving = true ∧ r.outcome = Outcome.ok) := by
  have hbad2 : ∃ p ∈ img.metadata, ∃ e, pyJsonLoads p.2 = .error e := by
    obtain ⟨p, hp, s, hs, hnone⟩ := hbad
    exact ⟨p, hp, .jsonDecodeError, by simp [pyJsonLoads, hs, hnone]⟩
  obtain ⟨e, he⟩ := saveWebp_error_of_bad_value w st.fs input req entry img hlook himg hbad2
  have hmem : absOf w.cwd input ∈ fsPaths st.fs := fsLookup_mem hlook
  refine ⟨⟨e, he⟩, ?_⟩
  unfold convert_png_to_webp at hr
  rw [if_neg (not_not_intro hmem)] at hr
  by_cases h2 : pyEndsWith (pyLower input) ".png" = true
  · rw [if_neg (not_not_intro h2), he] at hr
    subst hr
    exact ⟨rfl, rfl, rfl, fun _ => ⟨rfl, rfl⟩⟩
  · rw [if_pos h2] at hr
    subst hr
    exact ⟨rfl, rfl, rfl, fun hc => absurd hc h2⟩

/-- C10: a metadata value that is not a string at all (a dpi tuple, a
gamma float) makes json.loads raise TypeError inside the extraction, so
saveWebp fails before writing anything even though the image itself
decoded fine: the conversion is recorded as a failure, no output file
appears and the source is not deleted. -/
theorem convert_non_string_metadata_fails (w : World) (st : St) (input : String)
    (req : Request) (entry : FsEntry) (img : SourceImage) (r : ConvResult)
    (hr : r = convert_png_to_webp w st input req)
    (hlook : fsLookup st.fs (absOf w.cwd input) = some entry)
    (himg : entry.img = some img)
    (hbad : ∃ p ∈ img.metadata, p.2 = PyValue.other) :
    (∃ e, saveWebp w st.fs input req = .error e) ∧
    r.st.fs = st.fs ∧ r.saved = none ∧ r.st.trashed = st.trashed ∧
    (pyEndsWith (pyLower input) ".png" = true →
      r.errorSaving = true ∧ r.outcome = Outcome.ok) := by
  have hbad2 : ∃ p ∈ img.metadata, ∃ e, pyJsonLoads p.2 = .error e := by
    obtain ⟨p, hp, hother⟩ := hbad
    exact ⟨p, hp, .typeError, by simp [pyJsonLoads, hother]⟩
  obtain ⟨e, he⟩ := saveWebp_error_of_bad_value w st.fs input req entry img hlook himg hbad2
  have hmem : absOf w.cwd input ∈ fsPaths st.fs := fsLookup_mem hlook
  refine ⟨⟨e, he⟩, ?_⟩
  unfold convert_png_to_webp at hr
  rw [if_neg (not_not_intro hmem)] at hr
  by_cases h2 : pyEndsWith (pyLower input) ".png" = true
  · rw [if_neg (not_not_intro h2), he] at hr
    subst hr
    exact ⟨rfl, rfl, rfl, fun _ => ⟨rfl, rfl⟩⟩
  · rw [if_pos h2] at hr
    subst hr
    exact ⟨rfl, rfl, rfl, fun hc => absurd hc h2⟩

end Png2Webp

namespace Png2Webp

/-! ### Path and suffix lemmas for the batch driver -/

theorem exbind_error {ε α β : Type} (e : ε) (f : α → Except ε β) :
    (Except.error e >>= f) = Except.error e := rfl

theorem exbind_ok {ε α β : Type} (a : α) (f : α → Except ε β) :
    (Except.ok a >>= f) = f a := rfl

theorem isAbs_append (a b : String) (ha : a ≠ "") : isAbs (a ++ b) = isAbs a := by
  unfold isAbs
  rw [String.data_append]
  cases hd : a.data with
  | nil => exact absurd (String.ext hd) ha
  | cons c cs => simp [hd]

theorem osJoin_append (cwd a b : String) (ha : a ≠ "") :
    osJoin cwd (a ++ "/" ++ b) = osJoin cwd a ++ "/" ++ b := by
  unfold osJoin
  have hiff : isAbs (a ++ "/" ++ b) = isAbs a := by
    rw [String.append_assoc, isAbs_append a ("/" ++ b) ha]
  rw [hiff]
  by_cases h : isAbs a = true
  · rw [if_pos h, if_pos h]
  · rw [if_neg h, if_neg h]
    apply String.ext
    simp

theorem pyStartsWith_decomp {p pre : String} (h : pyStartsWith p pre = true) :
    p = pre ++ ⟨p.data.drop pre.data.length⟩ := by
  unfold pyStartsWith at h
  obtain ⟨t, ht⟩ := List.isPrefixOf_iff_prefix.mp h
  apply String.ext
  rw [String.data_append]
  show p.data = pre.data ++ p.data.drop pre.data.length
  conv_lhs => rw [← ht]
  rw [← ht, List.drop_left]

theorem png_suffix_transfer (root x : String)
    (hpng : pyEndsWith (root ++ "/" ++ x) ".png" = true) :
    ".png".data <:+ x.data := by
  unfold pyEndsWith at hpng
  have hsuf : ".png".data <:+ (root ++ "/" ++ x).data :=
    List.isSuffixOf_iff_suffix.mp hpng
  by_cases hlen : 4 ≤ x.data.length
  · have hx : x.data <:+ (root ++ "/" ++ x).data := by
      rw [String.data_append]
      exact List.suffix_append _ _
    exact List.suffix_of_suffix_length_le hsuf hx (by simpa using hlen)
  · exfalso
    have hslash : ('/' :: x.data) <:+ (root ++ "/" ++ x).data := by
      rw [String.data_append, String.data_append, List.append_assoc]
      exact ⟨root.data, rfl⟩
    have hc := List.suffix_of_suffix_length_le hslash hsuf
      (by simp only [List.length_cons]; simp at hlen ⊢; omega)
    have hmem : '/' ∈ ".png".data := hc.mem (List.mem_cons_self _ _)
    exact absurd hmem (by decide)

theorem suffix_append_left {α : Type} {l b : List α} (a : List α) (h : l <:+ b) :
    l <:+ a ++ b := by
  obtain ⟨t, ht⟩ := h
  refine ⟨a ++ t, ?_⟩
  rw [← ht, List.append_assoc]

theorem pyEndsWith_lower_png {s : String} (h : ".png".data <:+ s.data) :
    pyEndsWith (pyLower s) ".png" = true := by
  unfold pyEndsWith pyLower
  apply List.isSuffixOf_iff_suffix.mpr
  obtain ⟨t, ht⟩ := h
  refine ⟨t.map pyLowerChar, ?_⟩
  show t.map pyLowerChar ++ ".png".data = s.data.map pyLowerChar
  rw [← ht, List.map_append]
  have hfix : ".png".data.map pyLowerChar = ".png".data := by decide
  rw [hfix]

/-! ### The batch driver completes when attribute copying is skipped -/

theorem saveWebp_ok_fs {w : World} {fs : List FsEntry} {input : String}
    {req : Request} {res : SaveResult} {fs2 : List FsEntry}
    (h : saveWebp w fs input req = .ok (res, fs2)) :
    fs2 = { path := res.writtenAbs, mtime := w.now, img := none } :: fs := by
  unfold saveWebp at h
  split at h
  · cases h
  · rename_i entry heq
    split at h
    · cases h
    · rename_i img himg
      cases hext : extractFrom img.metadata EXTRA_METADATA_TAG [] with
      | error e =>
        rw [hext, exbind_error] at h
        cases h
      | ok exif =>
        rw [hext, exbind_ok] at h
        simp only at h
        split at h
        · injection h with h2
          obtain ⟨hres, hfs⟩ : _ ∧ _ := Prod.mk.injEq _ _ _ _ ▸ h2
          rw [hfs.symm, ← hres]
        · cases h

/-- One conversion with use_current_date set returns normally whatever
happens to the save, and removes at most its own source path from the
file list. -/
theorem convert_ok_of_use_current_date (w : World) (st : St) (input : String)
    (req : Request) (r : ConvResult)
    (hr : r = convert_png_to_webp w st input req)
    (hucd : req.use_current_date = true)
    (htok : ∀ p, w.trashOk p = true)
    (hin : w.stdinOk = true)
    (hmem : absOf w.cwd input ∈ fsPaths st.fs)
    (hpng : pyEndsWith (pyLower input) ".png" = true) :
    r.outcome = Outcome.ok ∧
    (∀ p ∈ fsPaths st.fs, p ≠ absOf w.cwd input → p ∈ fsPaths r.st.fs) := by
  unfold convert_png_to_webp at hr
  rw [if_neg (not_not_intro hmem), if_neg (not_not_intro hpng)] at hr
  split at hr
  · subst hr; exact ⟨rfl, fun p hp _ => hp⟩
  · rename_i res fs' hsv
    have hfs' : fs' = { path := res.writtenAbs, mtime := w.now, img := none } :: st.fs :=
      saveWebp_ok_fs hsv
    have hsub : ∀ p ∈ fsPaths st.fs, p ∈ fsPaths fs' := by
      intro p hp
      rw [hfs']
      simp only [fsPaths, List.map_cons, List.mem_cons]
      right
      exact hp
    simp only at hr
    rw [if_neg (show ¬ ¬ req.use_current_date = true by simp [hucd])] at hr
    simp only at hr
    by_cases hd : req.delete_after = true
    · rw [if_pos hd] at hr
      by_cases htr : w.trashAvail = true
      · rw [if_neg (show ¬ ¬ w.trashAvail = true by simp [htr])] at hr
        rw [if_neg (show ¬ ¬ w.trashOk (absOf w.cwd input) = true by
          simp [htok (absOf w.cwd input)])] at hr
        subst hr
        refine ⟨rfl, ?_⟩
        intro p hp hne
        simp only [fsPaths, List.mem_map]
        obtain ⟨e, he, hpe⟩ := List.mem_map.mp (hsub p hp)
        refine ⟨e, List.mem_filter.mpr ⟨he, ?_⟩, hpe⟩
        simp [hpe, hne]
      · rw [if_pos (show ¬ w.trashAvail = true by simp [htr])] at hr
        rw [if_neg (show ¬ ¬ w.stdinOk = true by simp [hin])] at hr
        by_cases hans : pyLower w.promptAnswer = "no"
        · rw [if_pos hans] at hr
          subst hr
          exact ⟨rfl, fun p hp _ => hsub p hp⟩
        · rw [if_neg hans] at hr
          subst hr
          exact ⟨rfl, fun p hp _ => hsub p hp⟩
    · rw [if_neg hd] at hr
      subst hr
      exact ⟨rfl, fun p hp _ => hsub p hp⟩

theorem runBatch_ok (w : World) (req : Request)
    (hucd : req.use_current_date = true)
    (htok : ∀ p, w.trashOk p = true)
    (hin : w.stdinOk = true) :
    ∀ (items : List String) (st : St),
      (∀ i ∈ items, pyEndsWith (pyLower i) ".png" = true) →
      (∀ i ∈ items, absOf w.cwd i ∈ fsPaths st.fs) →
      ((items.map (absOf w.cwd)).Nodup) →
      (runBatch w req items st).outcome = Outcome.ok := by
  intro items
  induction items with
  | nil => intro st _ _ _; rfl
  | cons i rest ih =>
    intro st hpng hmem hnd
    have hconv := convert_ok_of_use_current_date w st i req
      (convert_png_to_webp w st i req) rfl hucd htok hin
      (hmem i (by simp)) (hpng i (by simp))
    simp only [runBatch, hconv.1]
    apply ih
    · intro j hj; exact hpng j (by simp [hj])
    · intro j hj
      apply hconv.2
      · exact hmem j (by simp [hj])
      · intro hc
        simp only [List.map_cons, List.nodup_cons] at hnd
        exact hnd.1 (hc ▸ List.mem_map.mpr ⟨j, hj, rfl⟩)
    · simp only [List.map_cons, List.nodup_cons] at hnd
      exact hnd.2

theorem walkInputs_abs (w : World) (argsPath : String) (hne : argsPath ≠ "")
    (e : FsEntry) (hpre : pyStartsWith e.path (osJoin w.cwd argsPath ++ "/") = true) :
    absOf w.cwd
        (argsPath ++ "/" ++ ⟨e.path.data.drop (osJoin w.cwd argsPath ++ "/").data.length⟩)
      = e.path := by
  have hdec := pyStartsWith_decomp hpre
  rw [absOf, osJoin_append w.cwd argsPath _ hne]
  exact hdec.symm

/-- C4 amended: every error raised inside saveWebp (decode, metadata
parse, encode) is caught per file and never aborts the batch, so a run
of main returns normally from any starting state whose file paths are
distinct, whatever per-file save failures occur, provided nothing
outside the per-file try block fails: the attribute-copy step is
skipped (use_current_date set) and the disposal library calls do not
themselves fail (send2trash succeeding whenever invoked, stdin
available for the prompt).  Those outside steps are exactly the ones
whose failures propagate: the companion counterexample shows an
attribute-copy error aborting the run, and the model likewise raises
out of main when send2trash or the interactive read fails. -/
theorem main_completes_when_attr_copy_skipped (w : World) (req : Request)
    (argsPath : String)
    (hne : argsPath ≠ "")
    (hnd : (fsPaths w.fs).Nodup)
    (hucd : req.use_current_date = true)
    (htok : ∀ p, w.trashOk p = true)
    (hin : w.stdinOk = true) :
    (mainRun w req argsPath).outcome = Outcome.ok := by
  unfold mainRun
  split
  · apply runBatch_ok w req hucd htok hin
    · intro i hi
      simp only [walkInputs] at hi
      obtain ⟨e, he, hie⟩ := List.mem_map.mp hi
      have hpred := List.of_mem_filter he
      rw [Bool.and_eq_true] at hpred
      have hdec := pyStartsWith_decomp hpred.1
      rw [← hie]
      apply pyEndsWith_lower_png
      apply suffix_append_left
      refine png_suffix_transfer (osJoin w.cwd argsPath)
        ⟨e.path.data.drop (osJoin w.cwd argsPath ++ "/").data.length⟩ ?_
      rw [← hdec]
      exact hpred.2
    · intro i hi
      simp only [walkInputs] at hi
      obtain ⟨e, he, hie⟩ := List.mem_map.mp hi
      have hpred := List.of_mem_filter he
      rw [Bool.and_eq_true] at hpred
      rw [← hie, walkInputs_abs w argsPath hne e hpred.1]
      exact List.mem_map.mpr ⟨e, List.mem_of_mem_filter he, rfl⟩
    · simp only [walkInputs]
      rw [List.map_map]
      have heq : List.map (absOf w.cwd ∘ fun e : FsEntry =>
            argsPath ++ "/" ++ ⟨e.path.data.drop (osJoin w.cwd argsPath ++ "/").data.length⟩)
          (w.fs.filter (fun e => pyStartsWith e.path (osJoin w.cwd argsPath ++ "/")
            && pyEndsWith e.path ".png"))
          = List.map FsEntry.path
          (w.fs.filter (fun e => pyStartsWith e.path (osJoin w.cwd argsPath ++ "/")
            && pyEndsWith e.path ".png")) := by
        apply List.map_congr_left
        intro e he
        have hpred := List.of_mem_filter he
        rw [Bool.and_eq_true] at hpred
        exact walkInputs_abs w argsPath hne e hpred.1
      rw [heq]
      exact hnd.sublist (List.Sublist.map FsEntry.path (List.filter_sublist _))
  · rfl

end Png2Webp



namespace Png2Webp

/-! ### Evaluation theorems and witnesses on concrete runs -/

/-- C3: evaluation of the failing input.  With a relative input path
and a working directory different from the script directory, the chosen
output name is d/a.webp, but the encoder writes at the script-directory
join /opt/tool/d/a.webp, a path at which a file already exists (the
collision check probed /home/u/d/a.webp instead), and which is not the
source-directory output /home/u/d/a.webp the claim describes. -/
theorem saveWebp_output_location_divergence :
    (saveWebp wMismatch wMismatch.fs "d/a.png" reqPlain).toOption.map
        (fun p => (p.1.filename, p.1.writtenAbs)) = some ("d/a.webp", "/opt/tool/d/a.webp") ∧
    "/opt/tool/d/a.webp" ∈ fsPaths wMismatch.fs ∧
    pathlibJoin (pathParent "/home/u/d/a.png") ("a" ++ ".webp") = "/home/u/d/a.webp" ∧
    ("/opt/tool/d/a.webp" : String) ≠ "/home/u/d/a.webp" := by
  refine ⟨by rfl, by decide, by decide, by decide⟩

/-- C8: evaluation of the failing input.  The save succeeds, the flag
use_current_date is false, yet no attribute copy happens: copystat is
pointed at the computed output path where nothing was written (the file
went to the script-directory join), so it raises instead of copying. -/
theorem convert_attr_copy_missed :
    (convert_png_to_webp wMismatch stMismatch "d/a.png" reqPlain).errorSaving = false ∧
    reqPlain.use_current_date = false ∧
    (convert_png_to_webp wMismatch stMismatch "d/a.png" reqPlain).st.attrCopied = false ∧
    (convert_png_to_webp wMismatch stMismatch "d/a.png" reqPlain).outcome =
      Outcome.raised PyErr.osError := by
  refine ⟨by decide, rfl, by decide, by decide⟩

/-- C4 counterexample: an attribute-copy failure during a single file
conversion is not caught: it propagates out of convert_png_to_webp and
aborts the whole run of main, which therefore does not return
normally, against the claim that every per-file error is caught and
logged and the walk always completes. -/
theorem main_copystat_error_propagates :
    (mainRun wCopyFail reqPlain "/r/d").outcome = Outcome.raised PyErr.osError := by
  decide

/-- Witness for main_completes_when_attr_copy_skipped: with attribute
copying skipped the run over a directory with a failing and a clean
file returns normally, although its copystat oracle always fails and
one file has broken metadata. -/
theorem main_completes_when_attr_copy_skipped_witness :
    ("d" : String) ≠ "" ∧ (fsPaths wBatchTwo.fs).Nodup ∧
    (mainRun wBatchTwo reqNoAttr "d").outcome = Outcome.ok :=
  ⟨by decide, by decide,
    main_completes_when_attr_copy_skipped wBatchTwo reqNoAttr "d" (by decide) (by decide) rfl
      (fun _ => rfl) rfl⟩

/-- Witness for convert_delete_after_policy: on a clean run with
deletion requested and trash available, the source path is trashed. -/
theorem convert_delete_after_policy_witness :
    (convert_png_to_webp wTrash stTrash "/c/a.png" reqDelete).st.trashed =
      stTrash.trashed ++ [absOf wTrash.cwd "/c/a.png"] :=
  ((convert_delete_after_policy wTrash stTrash "/c/a.png" reqDelete
    (convert_png_to_webp wTrash stTrash "/c/a.png" reqDelete) rfl).1
    (by decide)).mpr ⟨rfl, rfl, by decide⟩

/-- Witness for convert_trash_unavailable_gate: without send2trash and
with deletion requested nothing is trashed, the operator is prompted,
and the answer No (case-insensitively) sets the declined flag. -/
theorem convert_trash_unavailable_gate_witness :
    (convert_png_to_webp wNoTrash stNoTrash "/c/a.png" reqDeleteNoAttr).st.trashed =
        stNoTrash.trashed ∧
    (convert_png_to_webp wNoTrash stNoTrash "/c/a.png" reqDeleteNoAttr).st.prompted = true ∧
    (convert_png_to_webp wNoTrash stNoTrash "/c/a.png" reqDeleteNoAttr).st.promptDeclined =
        true := by
  have h := convert_trash_unavailable_gate wNoTrash stNoTrash "/c/a.png" reqDeleteNoAttr
    (convert_png_to_webp wNoTrash stNoTrash "/c/a.png" reqDeleteNoAttr) rfl rfl rfl rfl
  refine ⟨h.1, (h.2 (by decide) (by decide)).1, ?_⟩
  exact ((h.2 (by decide) (by decide)).2).mpr (by decide)

/-- Witness for convert_invalid_json_fails: the file with the
unparsable prompt value is recorded as a failed conversion and the file
list is unchanged. -/
theorem convert_invalid_json_fails_witness :
    (convert_png_to_webp wBadJson stBadJson "/c/b.png" reqPlain).errorSaving = true ∧
    (convert_png_to_webp wBadJson stBadJson "/c/b.png" reqPlain).st.fs = stBadJson.fs := by
  have h := convert_invalid_json_fails wBadJson stBadJson "/c/b.png" reqPlain
    ⟨"/c/b.png", 5, some ⟨[("prompt", PyValue.str "nope")]⟩⟩
    ⟨[("prompt", PyValue.str "nope")]⟩
    (convert_png_to_webp wBadJson stBadJson "/c/b.png" reqPlain) rfl (by rfl) rfl
    ⟨("prompt", PyValue.str "nope"), by decide, "nope", rfl, by rfl⟩
  exact ⟨(h.2.2.2.2 (by decide)).1, h.2.1⟩

/-- Witness for convert_non_string_metadata_fails: the decodable image
with a tuple-valued info entry still fails its conversion, with no
output created. -/
theorem convert_non_string_metadata_fails_witness :
    (convert_png_to_webp wDpi stDpi "/c/c.png" reqPlain).errorSaving = true ∧
    (convert_png_to_webp wDpi stDpi "/c/c.png" reqPlain).st.fs = stDpi.fs := by
  have h := convert_non_string_metadata_fails wDpi stDpi "/c/c.png" reqPlain
    ⟨"/c/c.png", 5, some ⟨[("dpi", PyValue.other)]⟩⟩
    ⟨[("dpi", PyValue.other)]⟩
    (convert_png_to_webp wDpi stDpi "/c/c.png" reqPlain) rfl (by rfl) rfl
    ⟨("dpi", PyValue.other), by decide, rfl⟩
  exact ⟨(h.2.2.2.2 (by decide)).1, h.2.1⟩

end Png2Webp

